import Mathlib

/-!
# Verification of the Jex UI toolkit

A shallow embedding, in Lean 4, of the core logic of the Jex client-side
toolkit: the DOM wrapper (`Jex.js`), the logger console (`JexLogger.js`),
the toast notifier (`JexToast.js`) and the element inspector
(`JexInspector.js`).  Pure computations (geometry, token handling) become
Lean functions; the stateful widgets become explicit state-passing step
functions.  Pixel quantities coming from `getBoundingClientRect` /
`getComputedStyle` are modelled as rationals; JS `Date.now()` timestamps as
naturals; the `visibleToasts` counter as an integer because the JS number
can go below zero.
-/

/-- Removal of the first occurrence of an element from a list: the
behaviour of `removeEventListener` on the listener list and of
`Array.prototype.splice` / timer-queue removal on bookkeeping lists. -/
def eraseFirst {α : Type} [DecidableEq α] : List α → α → List α
  | [], _ => []
  | y :: rest, x => if y = x then rest else y :: eraseFirst rest x

namespace JexInspector

/-- Per-side box-model values (margins, borders or paddings), as parsed by
`parseFloat` from the computed style in `#showInspection`. -/
structure BoxEdges where
  top : ℚ
  right : ℚ
  bottom : ℚ
  left : ℚ
  deriving DecidableEq, Repr

/-- The result of `getBoundingClientRect` for the hovered element. -/
structure RectQ where
  left : ℚ
  top : ℚ
  width : ℚ
  height : ℚ
  deriving DecidableEq, Repr

/-- An absolutely positioned overlay box, as set through `.style({...})`. -/
structure OverlayStyle where
  left : ℚ
  top : ℚ
  width : ℚ
  height : ℚ
  deriving DecidableEq, Repr

/-- `contentWidth` as computed in `JexInspector.#showInspection`:
`rect.width - border.left - border.right - padding.left - padding.right`. -/
def contentWidth (rect : RectQ) (border padding : BoxEdges) : ℚ :=
  rect.width - border.left - border.right - padding.left - padding.right

/-- `contentHeight` as computed in `JexInspector.#showInspection`. -/
def contentHeight (rect : RectQ) (border padding : BoxEdges) : ℚ :=
  rect.height - border.top - border.bottom - padding.top - padding.bottom

/-- The content-box overlay placement from `JexInspector.#showInspection`:
when both content dimensions are strictly positive the overlay is placed at
`rect.left + border.left + padding.left - 1` / `rect.top + border.top +
padding.top - 1` with the content dimensions and opacity 1; otherwise only
`opacity: 0` is set (modelled as `none`). -/
def contentOverlay (rect : RectQ) (border padding : BoxEdges) :
    Option OverlayStyle :=
  if 0 < contentWidth rect border padding ∧
      0 < contentHeight rect border padding then
    some { left := rect.left + border.left + padding.left - 1
           top := rect.top + border.top + padding.top - 1
           width := contentWidth rect border padding
           height := contentHeight rect border padding }
  else
    none

/-- `JexInspector.#positionTooltip`: the tooltip is first placed at
`(mouseX + 15, mouseY + 15)`; each coordinate is then flipped to the other
side of the mouse when the tooltip would extend past the viewport edge
minus a 10px margin. -/
def positionTooltip (mouseX mouseY w h innerW innerH : ℚ) : ℚ × ℚ :=
  let left := mouseX + 15
  let top := mouseY + 15
  let left := if innerW - 10 < left + w then mouseX - w - 15 else left
  let top := if innerH - 10 < top + h then mouseY - h - 15 else top
  (left, top)

/-- The inspector's reaction to a window event, as registered in
`JexInspector.#init`: `jex:console:show` calls `enable()` and
`jex:console:hide` calls `disable()`; `isEnabled` is the inspector's
public state flag. -/
structure InspectorState where
  isEnabled : Bool
  deriving DecidableEq, Repr

/-- `JexInspector.enable`: no-op when already enabled, otherwise sets
`isEnabled` (the overlay container is also shown and mouse handlers
attached; only the flag is modelled). -/
def inspectorEnable (s : InspectorState) : InspectorState :=
  if s.isEnabled then s else { s with isEnabled := true }

/-- `JexInspector.disable`: no-op when already disabled, otherwise clears
`isEnabled`. -/
def inspectorDisable (s : InspectorState) : InspectorState :=
  if !s.isEnabled then s else { s with isEnabled := false }

/-- Dispatching a window event against the handler map registered by
`JexInspector.#init` via `jex.onWindow`. -/
def inspectorOnWindowEvent (s : InspectorState) (ev : String) :
    InspectorState :=
  if ev = "jex:console:show" then inspectorEnable s
  else if ev = "jex:console:hide" then inspectorDisable s
  else s

end JexInspector

namespace JexLogger

/-- A stored console message, with the fields `JexLogger.#addMessage`
reads or writes: the grouping key (`text`, `level`, `caller`) plus the
mutable `count` and `timestamp`. -/
structure LogMsg where
  level : String
  text : String
  caller : String
  timestamp : Nat
  count : Nat
  deriving DecidableEq, Repr

/-- `#config.defaults.maxLogs` of `JexLogger`. -/
def maxLogsDefault : Nat := 1000

/-- Whether `#addMessage` groups the incoming message with the last stored
one: same `text`, `level` and `caller`. -/
def isGrouped (msgs : List LogMsg) (m : LogMsg) : Bool :=
  match msgs.getLast? with
  | some lastMsg =>
      lastMsg.text == m.text && lastMsg.level == m.level &&
        lastMsg.caller == m.caller
  | none => false

/-- `JexLogger.#addMessage` acting on `#state.messages`: a grouped message
bumps the last entry's `count` and refreshes its `timestamp`; otherwise
the message is pushed and, when the stored list then exceeds `maxLogs`,
the oldest entry is shifted off. -/
def addMessage (maxLogs : Nat) (msgs : List LogMsg) (m : LogMsg)
    (now : Nat) : List LogMsg :=
  match msgs.getLast? with
  | some lastMsg =>
      if lastMsg.text == m.text && lastMsg.level == m.level &&
          lastMsg.caller == m.caller then
        msgs.dropLast ++
          [{ lastMsg with count := lastMsg.count + 1, timestamp := now }]
      else
        let pushed := msgs ++ [m]
        if maxLogs < pushed.length then pushed.tail else pushed
  | none =>
      let pushed := msgs ++ [m]
      if maxLogs < pushed.length then pushed.tail else pushed

/-- The logger console state touched by `toggleConsole`. -/
structure LoggerState where
  isVisible : Bool
  isAnimating : Bool
  deriving DecidableEq, Repr

/-- `JexLogger.toggleConsole`: ignored while animating; otherwise flips
`isVisible`, starts the animation, and dispatches on the window the custom
event `jex:console:show` when becoming visible and `jex:console:hide` when
becoming hidden.  The returned list holds the names of the dispatched
events. -/
def toggleConsole (s : LoggerState) : LoggerState × List String :=
  if s.isAnimating then (s, [])
  else
    let s1 : LoggerState :=
      { s with isAnimating := true, isVisible := !s.isVisible }
    if s1.isVisible then (s1, ["jex:console:show"])
    else (s1, ["jex:console:hide"])

end JexLogger

namespace Jex

/-- A console call made by a wrapper method (`console.warn` /
`console.error`). -/
inductive LogCall where
  | warn (msg : String)
  | error (msg : String)
  deriving DecidableEq, Repr

/-- The document, for `getElementById`: an association from element ids
(JS strings, as character lists) to abstract element handles; ids are
unique in a real document, and lookup takes the first binding. -/
abbrev Doc := List (List Char × Nat)

/-- `document.getElementById`. -/
def getElementById (d : Doc) (id : List Char) : Option Nat :=
  List.lookup id d

/-- What `Jex.$` returns: a wrapper around a found element, `null`, or a
boolean existence answer for `?`-prefixed ids. -/
inductive DollarRet where
  | elem (e : Nat)
  | null
  | bool (b : Bool)
  deriving DecidableEq, Repr

/-- The id-normalisation inside `Jex.$`:
`id.startsWith('#') ? id.substring(1) : id`. -/
def stripHash (s : List Char) : List Char :=
  if s.head? = some '#' then s.tail else s

/-- `Jex.$(id)`: an empty (falsy) id warns and returns null; a leading `?`
switches to an existence check on the rest of the id; a leading `#` on the
looked-up id is stripped; a missing element warns and returns null.  The
second component lists the console calls made (their text, which
interpolates the id, is abbreviated to the static part). -/
def jexDollar (d : Doc) (id : List Char) : DollarRet × List LogCall :=
  if id = [] then
    (.null, [.warn "Jex.$(): ID parameter is empty or undefined"])
  else
    let checkExists := id.head? = some '?'
    let id1 := if checkExists then id.tail else id
    let el := getElementById d (stripHash id1)
    if checkExists then
      (.bool el.isSome, [])
    else
      match el with
      | some e => (.elem e, [])
      | none =>
          (.null, [.warn "Jex.$(): Element with id not found"])

/-- The browser's `querySelector` for a fixed root element, abstracted as a
function from the selector to either a thrown `SyntaxError` (for an invalid
selector) or the optional first match. -/
abbrev QuerySelector := String → Except Unit (Option Nat)

/-- The browser's `querySelectorAll`, abstracted likewise; a valid selector
yields the list of matches. -/
abbrev QuerySelectorAll := String → Except Unit (List Nat)

/-- `Jex.select(selector)`: an empty selector warns and returns null; a
`SyntaxError` from `querySelector` is caught, logged as an error and turned
into null; a valid selector with no match warns and returns null. -/
def jexSelect (q : QuerySelector) (selector : String) :
    Option Nat × List LogCall :=
  if selector = "" then
    (none, [.warn "Jex.select: Invalid selector provided"])
  else
    match q selector with
    | .error _ =>
        (none, [.error ("Jex.select: Invalid selector syntax: " ++ selector)])
    | .ok none =>
        (none, [.warn ("Jex.select - Element not found: " ++ selector)])
    | .ok (some e) => (some e, [])

/-- `Jex.find(selector)`: an empty selector warns and returns an empty
collection; a `SyntaxError` from `querySelectorAll` is caught, logged as an
error and turned into an empty collection. -/
def jexFind (q : QuerySelectorAll) (selector : String) :
    List Nat × List LogCall :=
  if selector = "" then
    ([], [.warn "Jex.find: Invalid selector provided"])
  else
    match q selector with
    | .error _ =>
        ([], [.error ("Jex.find: Invalid selector syntax: " ++ selector)])
    | .ok es => (es, [])

/-- JS strings are modelled as character lists in the class-token logic,
where splitting and prefix inspection happen character by character. -/
abbrev JStr := List Char

/-- The whitespace characters matched by the `\s` of `split(/\s+/)` (the
common ASCII ones; exotic Unicode space classes are not produced by class
manipulation calls). -/
def isJsSpace (c : Char) : Bool :=
  c = ' ' || c = '\t' || c = '\n' || c = '\r'

/-- The token list built in `Jex.cls`:
`classes.join(' ').replace(/,/g, ' ').split(/\s+/).filter(Boolean)`. -/
def clsTokens (classes : List (List Char)) : List (List Char) :=
  (((List.intercalate [' '] classes).map
      (fun c => if c = ',' then ' ' else c)).splitOnP isJsSpace).filter
    (fun t => t ≠ [])

/-- `DOMTokenList.add`: appends the class when not already present. -/
def tokenAdd (l : List (List Char)) (n : List Char) : List (List Char) :=
  if l.contains n then l else l ++ [n]

/-- `DOMTokenList.remove`: drops every occurrence of the class. -/
def tokenRemove (l : List (List Char)) (n : List Char) : List (List Char) :=
  l.filter (fun c => c ≠ n)

/-- `DOMTokenList.toggle`. -/
def tokenToggle (l : List (List Char)) (n : List Char) : List (List Char) :=
  if l.contains n then tokenRemove l n else l ++ [n]

/-- The JS value returned by `Jex.cls`: the wrapper itself for chaining,
the `DOMTokenList` for the no-argument getter, or the value produced by a
`?` query — a boolean from `classList.contains`, or the empty string when
`name && list.contains(name)` short-circuits on an empty name. -/
inductive ClsRet where
  | self
  | list (l : List (List Char))
  | bool (b : Bool)
  | str (s : List Char)
  deriving DecidableEq, Repr

/-- The value computed by the `?` action of `Jex.cls`:
`name && list.contains(name)`. -/
def clsQuery (l : List (List Char)) (n : List Char) : ClsRet :=
  if n = [] then .str [] else .bool (l.contains n)

/-- The effect of one non-`?` token in the `Jex.cls` loop: the first
character is looked up in the `actions` table — `-`, `~` and `+` dispatch
into it (their callbacks ignore an empty name through the `name &&`
guard) — and any other token is `list.add(cls)`. -/
def clsStep (l : List (List Char)) (tok : List Char) : List (List Char) :=
  if tok.head? = some '-' then
    if tok.tail = [] then l else tokenRemove l tok.tail
  else if tok.head? = some '~' then
    if tok.tail = [] then l else tokenToggle l tok.tail
  else if tok.head? = some '+' then
    if tok.tail = [] then l else tokenAdd l tok.tail
  else tokenAdd l tok

/-- The token loop of `Jex.cls`: a `?` token returns its query result
immediately, leaving the class list untouched and every later token
unprocessed; other tokens update the class list. -/
def clsRun (l : List (List Char)) :
    List (List Char) → ClsRet × List (List Char)
  | [] => (.self, l)
  | tok :: rest =>
      if tok.head? = some '?' then (clsQuery l tok.tail, l)
      else clsRun (clsStep l tok) rest

/-- `Jex.cls(...classes)` on a class list `l`: with no arguments the
`classList` itself is returned, otherwise the token loop runs. -/
def cls (l : List (List Char)) (classes : List (List Char)) :
    ClsRet × List (List Char) :=
  if classes = [] then (.list l, l)
  else clsRun l (clsTokens classes)

/-- A handler entry as stored by `Jex.on` in `#eventHandlers`:
`{fn: handler, options}`.  The function and the options object are
abstracted as opaque identities; `removeEventListener` is keyed on the
same stored pair, which is sound here because `on`, `off` and `remove`
always pass the stored objects back unchanged. -/
structure Handler where
  fn : Nat
  options : Nat
  deriving DecidableEq, Repr

/-- The wrapper's `#eventHandlers` registry: a JS `Map` from event name to
the array of stored handlers, in insertion order. -/
abbrev HandlerMap := List (String × List Handler)

/-- `#eventHandlers.get(event)`. -/
def mapGet (m : HandlerMap) (ev : String) : Option (List Handler) :=
  List.lookup ev m

/-- Pushing a handler onto the bucket of `ev`, creating the bucket first
when missing (`if (!map.has(event)) map.set(event, []); map.get(event).push`). -/
def mapPush (m : HandlerMap) (ev : String) (h : Handler) : HandlerMap :=
  match m with
  | [] => [(ev, [h])]
  | (k, b) :: rest =>
      if k = ev then (k, b ++ [h]) :: rest else (k, b) :: mapPush rest ev h

/-- Replacing the bucket of an existing key (the `splice` in `Jex.off`
mutates the stored array in place). -/
def mapSetBucket (m : HandlerMap) (ev : String) (b2 : List Handler) :
    HandlerMap :=
  m.map (fun p => if p.1 = ev then (p.1, b2) else p)

/-- `#eventHandlers.delete(event)`. -/
def mapDelete (m : HandlerMap) (ev : String) : HandlerMap :=
  m.filter (fun p => p.1 ≠ ev)

/-- The listeners actually attached on the underlying DOM element, as
`(event, handler)` pairs; `addEventListener` ignores a duplicate
registration of the same pair and `removeEventListener` detaches one. -/
abbrev DomListeners := List (String × Handler)

/-- `EventTarget.addEventListener`: registering an already-attached
listener again is ignored. -/
def addListener (ls : DomListeners) (ev : String) (h : Handler) :
    DomListeners :=
  if (ev, h) ∈ ls then ls else ls ++ [(ev, h)]

/-- `EventTarget.removeEventListener`. -/
def removeListener (ls : DomListeners) (ev : String) (h : Handler) :
    DomListeners :=
  eraseFirst ls (ev, h)

/-- A single `Jex` wrapper together with its DOM element: the handler
registry, the element's attached listeners, and its parent node. -/
structure JexElem where
  eventHandlers : HandlerMap
  domListeners : DomListeners
  parent : Option Nat

/-- A freshly wrapped element: empty registry, no listeners yet. -/
def freshElem (parent : Option Nat) : JexElem :=
  { eventHandlers := [], domListeners := [], parent := parent }

/-- The `findIndex(h => h.fn === handler)` plus `splice(index, 1)` step of
`Jex.off`: the first stored handler whose `fn` matches, and the bucket
without it. -/
def removeFirstFn : List Handler → Nat → Option Handler × List Handler
  | [], _ => (none, [])
  | h :: t, fn =>
      if h.fn = fn then (some h, t)
      else
        let r := removeFirstFn t fn
        (r.1, h :: r.2)

/-- `Jex.off(event, handler?)`: with a handler, the first registry entry
with that `fn` is detached from the DOM (with its stored `fn` and
`options`) and spliced out; without one, every stored handler for the
event is detached and the map entry deleted. -/
def jexOff (s : JexElem) (ev : String) (fn? : Option Nat) : JexElem :=
  if ev = "" then s
  else
    match mapGet s.eventHandlers ev with
    | none => s
    | some bucket =>
        match fn? with
        | some fn =>
            match removeFirstFn bucket fn with
            | (none, _) => s
            | (some h, bucket2) =>
                { s with
                  eventHandlers := mapSetBucket s.eventHandlers ev bucket2
                  domListeners := removeListener s.domListeners ev h }
        | none =>
            { s with
              eventHandlers := mapDelete s.eventHandlers ev
              domListeners :=
                bucket.foldl (fun ls h => removeListener ls ev h)
                  s.domListeners }

/-- `Jex.on(event, handler, options)`: a `-`-prefixed event name delegates
to `off`; otherwise the handler is recorded in the registry and attached
with `addEventListener`. -/
def jexOn (s : JexElem) (ev : String) (h : Handler) : JexElem :=
  if ev = "" then s
  else if ev.startsWith "-" then jexOff s (ev.drop 1) (some h.fn)
  else
    { s with
      eventHandlers := mapPush s.eventHandlers ev h
      domListeners := addListener s.domListeners ev h }

/-- The event-lifecycle operations a client can perform on a wrapper. -/
inductive JexOp where
  | on (ev : String) (h : Handler)
  | off (ev : String) (fn? : Option Nat)

/-- Running one operation. -/
def applyOp (s : JexElem) : JexOp → JexElem
  | .on ev h => jexOn s ev h
  | .off ev fn? => jexOff s ev fn?

/-- The handler-cleanup phase of `Jex.remove()`: for every event and every
stored handler, `removeEventListener(event, handler.fn, handler.options)`
is called, then the registry is cleared. -/
def cleanupHandlers (s : JexElem) : JexElem :=
  { s with
    domListeners :=
      s.eventHandlers.foldl
        (fun ls p => p.2.foldl (fun ls2 h => removeListener ls2 p.1 h) ls)
        s.domListeners
    eventHandlers := [] }

/-- The detach phase of `Jex.remove()`: `this.#ref.remove()` when a parent
exists. -/
def detachParent (s : JexElem) : JexElem :=
  { s with parent := none }

/-- `Jex.remove()` with no argument: clean up all registered event
handlers, then detach the element from its parent. -/
def jexRemove (s : JexElem) : JexElem :=
  detachParent (cleanupHandlers s)

/-- The registry flattened to `(event, handler)` pairs, one per
`removeEventListener` call `Jex.remove()` makes. -/
def regPairs (m : HandlerMap) : List (String × Handler) :=
  m.flatMap (fun p => p.2.map (fun h => (p.1, h)))

end Jex

namespace JexToast

/-- The `JexToast` options consulted by `show`, `#handleDuplicate`,
`#showToast` and `#processQueue` (styling options are omitted). -/
structure ToastOptions where
  maxVisible : Nat
  duration : Nat
  queueMessages : Bool
  detectDuplicates : Bool
  deriving DecidableEq, Repr

/-- The constructor defaults of `JexToast`. -/
def defaultToastOptions : ToastOptions :=
  { maxVisible := 3, duration := 5000, queueMessages := true
    detectDuplicates := true }

/-- The per-toast record kept in `#activeToasts`.  `timer` is the pending
auto-dismiss delay (`none` when no timer is armed or it was cleared);
`pulses` counts the `jex-toast-pulse` animations applied by
`#handleDuplicate`. -/
structure ToastData where
  type : String
  message : String
  duration : Nat
  timer : Option Nat
  pulses : Nat
  deriving DecidableEq, Repr

/-- The `#lastToast` record written by `#showToast`. -/
structure LastToast where
  type : String
  message : String
  timestamp : Nat
  deriving DecidableEq, Repr

/-- The `JexToast` instance state.  `active` is the insertion-ordered
`#activeToasts` map, keyed by an abstract identity of the toast DOM
element; `pending` lists the toasts whose exit animation (the deferred
block of `#removeToast`) has been scheduled; `visibleToasts` is the JS
counter, an integer because the code can drive it below zero. -/
structure ToastState where
  queue : List (String × String × Nat)
  active : List (Nat × ToastData)
  pending : List Nat
  visibleToasts : Int
  isVisible : Bool
  lastToast : Option LastToast
  nextId : Nat
  deriving DecidableEq, Repr

/-- The state of a freshly constructed `JexToast`. -/
def toastInit : ToastState :=
  { queue := [], active := [], pending := [], visibleToasts := 0
    isVisible := false, lastToast := none, nextId := 0 }

/-- `JexToast.#isDuplicate(type, message)` at time `now`.  (JS computes
`now - timestamp < 1000` on possibly negative numbers; with a monotone
clock `now ≥ timestamp`, where truncated subtraction agrees.) -/
def isDuplicate (s : ToastState) (t m : String) (now : Nat) : Bool :=
  match s.lastToast with
  | some lt =>
      lt.type == t && lt.message == m && decide (now - lt.timestamp < 1000)
  | none => false

/-- The loop body of `JexToast.#handleDuplicate`: the first active toast
with the same type and message is pulsed and its auto-dismiss timer is
cleared and re-armed with the configured default `options.duration`; the
loop breaks there. -/
def pulseFirstMatch (opts : ToastOptions) (t m : String) :
    List (Nat × ToastData) → List (Nat × ToastData)
  | [] => []
  | (id, d) :: rest =>
      if d.type == t && d.message == m then
        (id, { d with pulses := d.pulses + 1, timer := some opts.duration })
          :: rest
      else (id, d) :: pulseFirstMatch opts t m rest

/-- `JexToast.#handleDuplicate(type, message)`. -/
def handleDuplicate (opts : ToastOptions) (s : ToastState) (t m : String) :
    ToastState :=
  { s with active := pulseFirstMatch opts t m s.active }

/-- `JexToast.#showToast(type, message, duration)`: creates the toast
element, appends it to `#activeToasts`, bumps `#visibleToasts`, records
`#lastToast` with the current time, and arms the auto-removal timer when
the duration is positive. -/
def showToast (_opts : ToastOptions) (s : ToastState) (t m : String)
    (dur : Nat) (now : Nat) : ToastState :=
  let d : ToastData :=
    { type := t, message := m, duration := dur
      timer := if 0 < dur then some dur else none, pulses := 0 }
  { s with
    active := s.active ++ [(s.nextId, d)]
    nextId := s.nextId + 1
    visibleToasts := s.visibleToasts + 1
    isVisible := true
    lastToast := some { type := t, message := m, timestamp := now } }

/-- `#activeToasts.get` for the toast map. -/
def activeGet (s : ToastState) (id : Nat) : Option ToastData :=
  List.lookup id s.active

/-- The synchronous part of `JexToast.#removeToast`: a toast no longer in
`#activeToasts` is ignored; otherwise its timer is cleared, the exit
animation starts, and the deferred removal block is scheduled (the toast
joins `pending`). -/
def removeStart (s : ToastState) (id : Nat) : ToastState :=
  match activeGet s id with
  | none => s
  | some d =>
      { s with
        active := s.active.map
          (fun p => if p.1 = id then (p.1, { d with timer := none }) else p)
        pending := s.pending ++ [id] }

/-- `JexToast.#processQueue`: while a message is queued and a visible slot
is free, shift it off the queue and show it. -/
def processQueue (opts : ToastOptions) (s : ToastState) (now : Nat) :
    ToastState :=
  match s.queue with
  | [] => s
  | (t, m, dur) :: rest =>
      if s.visibleToasts < (opts.maxVisible : Int) then
        showToast opts { s with queue := rest } t m dur now
      else s

/-- The deferred block of `JexToast.#removeToast`, run when the exit
animation ends: the element is removed from the DOM and from
`#activeToasts`, `#visibleToasts` is decremented, `isVisible` cleared when
the counter reaches zero, and the queue is processed. -/
def removeFinish (opts : ToastOptions) (s : ToastState) (id : Nat)
    (now : Nat) : ToastState :=
  let s1 : ToastState :=
    { s with
      active := s.active.filter (fun p => p.1 ≠ id)
      pending := eraseFirst s.pending id
      visibleToasts := s.visibleToasts - 1 }
  let s2 : ToastState :=
    if s1.visibleToasts = 0 then { s1 with isVisible := false } else s1
  processQueue opts s2 now

/-- `JexToast.show(type, message, duration)` at time `now`: resolve the
duration default, divert duplicates, queue (or start evicting the oldest
toast) when `#visibleToasts` has reached `maxVisible`, otherwise show. -/
def toastShow (opts : ToastOptions) (s : ToastState) (t m : String)
    (duration : Option Nat) (now : Nat) : ToastState :=
  let actualDuration := duration.getD opts.duration
  if opts.detectDuplicates && isDuplicate s t m now then
    handleDuplicate opts s t m
  else if (opts.maxVisible : Int) ≤ s.visibleToasts then
    if opts.queueMessages then
      { s with queue := s.queue ++ [(t, m, actualDuration)] }
    else
      let s1 :=
        match s.active.head? with
        | some p => removeStart s p.1
        | none => s
      showToast opts s1 t m actualDuration now
  else
    showToast opts s t m actualDuration now

/-- The externally triggered events of the toast system: an API call to
`show`, the synchronous start of a removal (close-button click or a firing
auto-dismiss timer), and the end of an exit animation.  A `removeFinish`
for a toast with no scheduled removal cannot occur and is a no-op. -/
inductive ToastEvent where
  | show (t m : String) (duration : Option Nat) (now : Nat)
  | removeStart (id : Nat)
  | removeFinish (id : Nat) (now : Nat)
  deriving DecidableEq, Repr

/-- One step of the toast system. -/
def toastStep (opts : ToastOptions) (s : ToastState) :
    ToastEvent → ToastState
  | .show t m dur now => toastShow opts s t m dur now
  | .removeStart id => removeStart s id
  | .removeFinish id now =>
      if s.pending.contains id then removeFinish opts s id now else s

/-- Running a list of events. -/
def runTrace (opts : ToastOptions) (s : ToastState) :
    List ToastEvent → ToastState
  | [] => s
  | e :: es => runTrace opts (toastStep opts s e) es

/-- An event that does not start a second removal of a toast whose removal
is already in progress (such a second start arises from clicking the close
button again during the exit animation). -/
def goodEvent (s : ToastState) : ToastEvent → Bool
  | .removeStart id => !s.pending.contains id
  | _ => true

/-- A trace whose every event is good in the state where it fires. -/
def goodTrace (opts : ToastOptions) (s : ToastState) :
    List ToastEvent → Bool
  | [] => true
  | e :: es => goodEvent s e && goodTrace opts (toastStep opts s e) es

end JexToast

/-- Wrapper well-formedness maintained by the event API: the element's
attached listeners are duplicate-free, and every one of them is recorded
in the wrapper's registry under its event with its stored handler
object. -/
def RegInv (s : Jex.JexElem) : Prop :=
  s.domListeners.Nodup ∧
  ∀ x ∈ s.domListeners,
    ∃ b, Jex.mapGet s.eventHandlers x.1 = some b ∧ x.2 ∈ b

/-- Toast-system well-formedness: the `#visibleToasts` counter agrees with
the `#activeToasts` map, the map never exceeds `maxVisible`, element
identities are unique and fresh, and every scheduled exit animation
belongs to a still-active toast, at most once. -/
def ToastInv (opts : JexToast.ToastOptions) (s : JexToast.ToastState) :
    Prop :=
  s.visibleToasts = (s.active.length : Int) ∧
  s.active.length ≤ opts.maxVisible ∧
  (s.active.map Prod.fst).Nodup ∧
  s.pending.Nodup ∧
  (∀ id ∈ s.pending, id ∈ s.active.map Prod.fst) ∧
  (∀ id ∈ s.active.map Prod.fst, id < s.nextId)

/-! ## Theorems -/

/-- C7: for every mouse position, the tooltip goes to
`(mouseX + 15, mouseY + 15)`, except that a placement pushing its right
edge past `window.innerWidth - 10` flips the horizontal position to
`mouseX - tooltipWidth - 15`, and one pushing its bottom edge past
`window.innerHeight - 10` flips the vertical position to
`mouseY - tooltipHeight - 15`. -/
theorem positionTooltip_spec (mouseX mouseY w h innerW innerH : ℚ) :
    JexInspector.positionTooltip mouseX mouseY w h innerW innerH =
      ((if mouseX + 15 + w > innerW - 10 then mouseX - w - 15
        else mouseX + 15),
       (if mouseY + 15 + h > innerH - 10 then mouseY - h - 15
        else mouseY + 15)) := rfl

/-- C6 counterexample: the content overlay is not placed exactly at the
rect origin offset by border plus padding — the code subtracts one more
pixel.  With `rect.left = 100`, `border.left = 2`, `padding.left = 3` the
overlay lands at 104, not at `100 + 2 + 3 = 105`. -/
theorem contentOverlay_offset_cex :
    JexInspector.contentOverlay
        { left := 100, top := 200, width := 50, height := 40 }
        { top := 2, right := 2, bottom := 2, left := 2 }
        { top := 3, right := 3, bottom := 3, left := 3 } =
      some { left := 104, top := 204, width := 40, height := 30 } ∧
    (104 : ℚ) ≠ 100 + 2 + 3 := by
  refine ⟨?_, by norm_num⟩
  norm_num [JexInspector.contentOverlay, JexInspector.contentWidth,
    JexInspector.contentHeight]

/-- C6 (amended): the content box is computed from the computed styles as
the bounding-rect size minus both borders and both paddings on the
respective axis; the overlay is positioned at the rect origin offset by
the top/left border plus padding, minus one extra pixel for the overlay's
own border; and only `opacity: 0` is set whenever a content dimension is
not strictly positive. -/
theorem contentOverlay_spec (rect : JexInspector.RectQ)
    (border padding : JexInspector.BoxEdges) :
    (JexInspector.contentWidth rect border padding =
       rect.width - border.left - border.right -
         padding.left - padding.right) ∧
    (JexInspector.contentHeight rect border padding =
       rect.height - border.top - border.bottom -
         padding.top - padding.bottom) ∧
    (0 < JexInspector.contentWidth rect border padding ∧
        0 < JexInspector.contentHeight rect border padding →
      JexInspector.contentOverlay rect border padding =
        some { left := rect.left + border.left + padding.left - 1
               top := rect.top + border.top + padding.top - 1
               width := JexInspector.contentWidth rect border padding
               height := JexInspector.contentHeight rect border padding }) ∧
    (¬(0 < JexInspector.contentWidth rect border padding ∧
        0 < JexInspector.contentHeight rect border padding) →
      JexInspector.contentOverlay rect border padding = none) := by
  refine ⟨rfl, rfl, fun h => ?_, fun h => ?_⟩
  · simp only [JexInspector.contentOverlay, if_pos h]
  · simp only [JexInspector.contentOverlay, if_neg h]

/-- C6 witness: the amended placement at a concrete box. -/
theorem contentOverlay_spec_witness :
    JexInspector.contentOverlay
        { left := 10, top := 20, width := 30, height := 40 }
        { top := 1, right := 1, bottom := 1, left := 1 }
        { top := 2, right := 2, bottom := 2, left := 2 } =
      some { left := 10 + 1 + 2 - 1, top := 20 + 1 + 2 - 1
             width := JexInspector.contentWidth
               { left := 10, top := 20, width := 30, height := 40 }
               { top := 1, right := 1, bottom := 1, left := 1 }
               { top := 2, right := 2, bottom := 2, left := 2 }
             height := JexInspector.contentHeight
               { left := 10, top := 20, width := 30, height := 40 }
               { top := 1, right := 1, bottom := 1, left := 1 }
               { top := 2, right := 2, bottom := 2, left := 2 } } :=
  (contentOverlay_spec _ _ _).2.2.1
    (by norm_num [JexInspector.contentWidth, JexInspector.contentHeight])

/-- C8 counterexample: toggling the hidden, idle console to visible
dispatches an event named `jex:console:show`; no event named
`console:show` is dispatched. -/
theorem toggleConsole_eventName_cex :
    (JexLogger.toggleConsole
        { isVisible := false, isAnimating := false }).2 =
      ["jex:console:show"] ∧
    "console:show" ∉
      (JexLogger.toggleConsole
          { isVisible := false, isAnimating := false }).2 := by
  decide

/-- C8 (amended): whenever the idle logger console is toggled to visible
the global custom event `jex:console:show` is dispatched on the window,
and whenever it is toggled to hidden the event `jex:console:hide` is
dispatched; the inspector enables itself on the former and disables
itself on the latter. -/
theorem toggleConsole_dispatch (s : JexLogger.LoggerState)
    (hAnim : s.isAnimating = false) :
    ((JexLogger.toggleConsole s).1.isVisible = !s.isVisible) ∧
    ((JexLogger.toggleConsole s).1.isVisible = true →
      (JexLogger.toggleConsole s).2 = ["jex:console:show"]) ∧
    ((JexLogger.toggleConsole s).1.isVisible = false →
      (JexLogger.toggleConsole s).2 = ["jex:console:hide"]) ∧
    (∀ i, (JexInspector.inspectorOnWindowEvent i
        "jex:console:show").isEnabled = true) ∧
    (∀ i, (JexInspector.inspectorOnWindowEvent i
        "jex:console:hide").isEnabled = false) := by
  refine ⟨?_, ?_, ?_, fun i => ?_, fun i => ?_⟩
  · simp [JexLogger.toggleConsole, hAnim]
    split <;> rfl
  · intro hv
    simp only [JexLogger.toggleConsole, hAnim] at hv ⊢
    simp only [Bool.false_eq_true, if_false] at hv ⊢
    split at hv <;> simp_all
  · intro hv
    simp only [JexLogger.toggleConsole, hAnim] at hv ⊢
    simp only [Bool.false_eq_true, if_false] at hv ⊢
    split at hv <;> simp_all
  · rcases i with ⟨(_ | _)⟩ <;> decide
  · rcases i with ⟨(_ | _)⟩ <;> decide

/-- C8 witness: toggling from the hidden idle state. -/
theorem toggleConsole_dispatch_witness :
    ((JexLogger.toggleConsole
        { isVisible := false, isAnimating := false }).1.isVisible = true →
      (JexLogger.toggleConsole
          { isVisible := false, isAnimating := false }).2 =
        ["jex:console:show"]) ∧
    (∀ i, (JexInspector.inspectorOnWindowEvent i
        "jex:console:show").isEnabled = true) :=
  ⟨(toggleConsole_dispatch _ rfl).2.1,
   (toggleConsole_dispatch
      { isVisible := false, isAnimating := false } rfl).2.2.2.1⟩

/-- On a non-grouped message, `#addMessage` is push-then-cap. -/
lemma addMessage_of_not_grouped (maxLogs : Nat) (msgs : List JexLogger.LogMsg)
    (m : JexLogger.LogMsg) (now : Nat)
    (h : JexLogger.isGrouped msgs m = false) :
    JexLogger.addMessage maxLogs msgs m now =
      if maxLogs < (msgs ++ [m]).length then (msgs ++ [m]).tail
      else msgs ++ [m] := by
  rcases msgs.eq_nil_or_concat with rfl | ⟨ys, y, rfl⟩
  · simp [JexLogger.addMessage]
  · simp only [List.concat_eq_append] at h ⊢
    simp only [JexLogger.isGrouped, List.getLast?_concat] at h
    simp only [JexLogger.addMessage, List.getLast?_concat, h,
      Bool.false_eq_true, if_false]

/-- One `#addMessage` step keeps the stored list within `maxLogs`. -/
lemma addMessage_length_le (maxLogs : Nat) (msgs : List JexLogger.LogMsg)
    (m : JexLogger.LogMsg) (now : Nat) (h : msgs.length ≤ maxLogs) :
    (JexLogger.addMessage maxLogs msgs m now).length ≤ maxLogs := by
  rcases msgs.eq_nil_or_concat with rfl | ⟨ys, y, rfl⟩
  · simp only [JexLogger.addMessage, List.getLast?_nil, List.nil_append]
    split
    · simp
    · rename_i hle
      simp only [List.length_cons, List.length_nil] at hle ⊢
      omega
  · simp only [List.concat_eq_append] at h ⊢
    simp only [List.length_append, List.length_cons, List.length_nil] at h
    simp only [JexLogger.addMessage, List.getLast?_concat]
    split
    · rw [List.dropLast_concat]
      simp only [List.length_append, List.length_cons, List.length_nil]
      omega
    · split
      · simp only [List.length_tail, List.length_append, List.length_cons,
          List.length_nil]
        omega
      · rename_i hle
        simp only [not_lt, List.length_append, List.length_cons,
          List.length_nil] at hle ⊢
        omega

/-- C2: the default cap is 1000; each `#addMessage` step keeps the stored
list at length at most `maxLogs`; a non-grouped message arriving at the
cap drops the oldest stored message; below the cap it is just appended;
and from an empty console any message sequence stays within the cap. -/
theorem addMessage_capped :
    JexLogger.maxLogsDefault = 1000 ∧
    (∀ maxLogs msgs m now, msgs.length ≤ maxLogs →
       (JexLogger.addMessage maxLogs msgs m now).length ≤ maxLogs) ∧
    (∀ maxLogs msgs (m : JexLogger.LogMsg) now, 0 < maxLogs →
       JexLogger.isGrouped msgs m = false → msgs.length = maxLogs →
       JexLogger.addMessage maxLogs msgs m now = msgs.tail ++ [m]) ∧
    (∀ maxLogs msgs (m : JexLogger.LogMsg) now,
       JexLogger.isGrouped msgs m = false → msgs.length < maxLogs →
       JexLogger.addMessage maxLogs msgs m now = msgs ++ [m]) ∧
    (∀ maxLogs (steps : List (JexLogger.LogMsg × Nat)),
       (steps.foldl
          (fun acc p => JexLogger.addMessage maxLogs acc p.1 p.2)
          []).length ≤ maxLogs) := by
  refine ⟨rfl, fun maxLogs msgs m now h =>
      addMessage_length_le maxLogs msgs m now h,
    fun maxLogs msgs m now hpos hg hlen => ?_,
    fun maxLogs msgs m now hg hlen => ?_, fun maxLogs steps => ?_⟩
  · rw [addMessage_of_not_grouped maxLogs msgs m now hg]
    have hlt : maxLogs < (msgs ++ [m]).length := by
      simp only [List.length_append, List.length_cons, List.length_nil]
      omega
    rw [if_pos hlt]
    cases msgs with
    | nil =>
        simp only [List.length_nil] at hlen
        exact (False.elim (by omega))
    | cons a t => simp
  · rw [addMessage_of_not_grouped maxLogs msgs m now hg]
    have hng : ¬ maxLogs < (msgs ++ [m]).length := by
      simp only [List.length_append, List.length_cons, List.length_nil]
      omega
    rw [if_neg hng]
  · have key : ∀ (steps : List (JexLogger.LogMsg × Nat))
        (acc : List JexLogger.LogMsg), acc.length ≤ maxLogs →
        (steps.foldl
          (fun acc p => JexLogger.addMessage maxLogs acc p.1 p.2)
          acc).length ≤ maxLogs := by
      intro steps
      induction steps with
      | nil => intro acc h; simpa using h
      | cons p rest ih =>
          intro acc h
          exact ih _ (addMessage_length_le maxLogs acc p.1 p.2 h)
    exact key steps [] (by simp)

/-- C2 witness: a full two-message console dropping its oldest entry. -/
theorem addMessage_capped_witness :
    JexLogger.addMessage 2
        [{ level := "info", text := "a", caller := "x", timestamp := 0,
           count := 1 },
         { level := "warn", text := "b", caller := "x", timestamp := 1,
           count := 1 }]
        { level := "error", text := "c", caller := "y", timestamp := 2,
          count := 1 } 2 =
      [{ level := "warn", text := "b", caller := "x", timestamp := 1,
         count := 1 },
       { level := "error", text := "c", caller := "y", timestamp := 2,
         count := 1 }] := by
  rw [addMessage_capped.2.2.1 2 _ _ 2 (by decide) (by decide) (by decide)]
  rfl

/-- C3 counterexample: `Jex.$("?x")` on a document without element `x`
returns the boolean `false` — not `null` — and logs nothing. -/
theorem jexDollar_question_cex :
    Jex.jexDollar [] ['?', 'x'] = (Jex.DollarRet.bool false, []) ∧
    Jex.DollarRet.bool false ≠ Jex.DollarRet.null := by
  decide

/-- C3 (amended): an id not using the `?` existence prefix whose lookup
fails makes `Jex.$` warn and return null; an empty, non-matching or
syntactically invalid selector makes `Jex.select` log a warning or error
and return null; an empty or invalid selector makes `Jex.find` log a
warning or error and return an empty collection — all without the thrown
`SyntaxError` escaping. -/
theorem dollar_select_find_guard :
    (∀ d (id : List Char), id.head? ≠ some '?' →
       Jex.getElementById d (Jex.stripHash id) = none →
       (Jex.jexDollar d id).1 = Jex.DollarRet.null ∧
       ∃ msg, (Jex.jexDollar d id).2 = [Jex.LogCall.warn msg]) ∧
    (∀ q sel, sel = "" ∨ q sel = Except.ok none ∨ q sel = Except.error () →
       (Jex.jexSelect q sel).1 = none ∧
       ∃ msg, (Jex.jexSelect q sel).2 = [Jex.LogCall.warn msg] ∨
         (Jex.jexSelect q sel).2 = [Jex.LogCall.error msg]) ∧
    (∀ q sel, sel = "" ∨ q sel = Except.error () →
       (Jex.jexFind q sel).1 = [] ∧
       ∃ msg, (Jex.jexFind q sel).2 = [Jex.LogCall.warn msg] ∨
         (Jex.jexFind q sel).2 = [Jex.LogCall.error msg]) := by
  refine ⟨fun d id hq hmiss => ?_, fun q sel hcase => ?_,
    fun q sel hcase => ?_⟩
  · by_cases hid : id = []
    · subst hid
      exact ⟨rfl, _, rfl⟩
    · constructor
      · simp [Jex.jexDollar, hid, hq, hmiss]
      · exact ⟨"Jex.$(): Element with id not found",
          by simp [Jex.jexDollar, hid, hq, hmiss]⟩
  · rcases hcase with rfl | hok | herr
    · exact ⟨rfl, _, Or.inl rfl⟩
    · by_cases hsel : sel = ""
      · subst hsel; exact ⟨rfl, _, Or.inl rfl⟩
      · refine ⟨?_, ?_⟩
        · simp [Jex.jexSelect, hsel, hok]
        · exact ⟨"Jex.select - Element not found: " ++ sel,
            Or.inl (by simp [Jex.jexSelect, hsel, hok])⟩
    · by_cases hsel : sel = ""
      · subst hsel; exact ⟨rfl, _, Or.inl rfl⟩
      · refine ⟨?_, ?_⟩
        · simp [Jex.jexSelect, hsel, herr]
        · exact ⟨"Jex.select: Invalid selector syntax: " ++ sel,
            Or.inr (by simp [Jex.jexSelect, hsel, herr])⟩
  · rcases hcase with rfl | herr
    · exact ⟨rfl, _, Or.inl rfl⟩
    · by_cases hsel : sel = ""
      · subst hsel; exact ⟨rfl, _, Or.inl rfl⟩
      · refine ⟨?_, ?_⟩
        · simp [Jex.jexFind, hsel, herr]
        · exact ⟨"Jex.find: Invalid selector syntax: " ++ sel,
            Or.inr (by simp [Jex.jexFind, hsel, herr])⟩

/-- C3 witness: a missing id, and an invalid selector for both `select`
and `find`. -/
theorem dollar_select_find_guard_witness :
    ((Jex.jexDollar [] ['n']).1 = Jex.DollarRet.null ∧
      ∃ msg, (Jex.jexDollar [] ['n']).2 = [Jex.LogCall.warn msg]) ∧
    ((Jex.jexSelect (fun _ => Except.error ()) ".bad[").1 = none ∧
      ∃ msg,
        (Jex.jexSelect (fun _ => Except.error ()) ".bad[").2 =
            [Jex.LogCall.warn msg] ∨
          (Jex.jexSelect (fun _ => Except.error ()) ".bad[").2 =
            [Jex.LogCall.error msg]) ∧
    ((Jex.jexFind (fun _ => Except.error ()) ".bad[").1 = [] ∧
      ∃ msg,
        (Jex.jexFind (fun _ => Except.error ()) ".bad[").2 =
            [Jex.LogCall.warn msg] ∨
          (Jex.jexFind (fun _ => Except.error ()) ".bad[").2 =
            [Jex.LogCall.error msg]) :=
  ⟨dollar_select_find_guard.1 [] ['n'] (by decide) (by decide),
   dollar_select_find_guard.2.1 _ ".bad[" (Or.inr (Or.inr rfl)),
   dollar_select_find_guard.2.2 _ ".bad[" (Or.inr rfl)⟩

/-- C9 counterexample: for `Jex.$("?#a")` the remainder of the id is
`#a`; with an element whose id is literally `#a` in the document, the call
still returns `false`, because the code strips the leading `#` and looks
up `a` instead. -/
theorem jexDollar_hashStrip_cex :
    Jex.jexDollar [(['#', 'a'], 0)] ['?', '#', 'a'] =
      (Jex.DollarRet.bool false, []) ∧
    Jex.getElementById [(['#', 'a'], 0)] ['#', 'a'] = some 0 := by
  decide

/-- C9 (amended): for every id beginning with `?`, `Jex.$` returns the
boolean existence of an element whose id equals the remainder of the
string after additionally stripping a leading `#`, and logs nothing. -/
theorem jexDollar_existence (d : Jex.Doc) (id : List Char)
    (h : id.head? = some '?') :
    Jex.jexDollar d id =
      (Jex.DollarRet.bool
        (Jex.getElementById d (Jex.stripHash id.tail)).isSome, []) := by
  have hne : id ≠ [] := by
    intro he; subst he; simp at h
  simp [Jex.jexDollar, hne, h]

/-- C9 witness: `Jex.$("?a")` with element `a` present. -/
theorem jexDollar_existence_witness :
    Jex.jexDollar [(['a'], 5)] ['?', 'a'] = (Jex.DollarRet.bool true, []) := by
  rw [jexDollar_existence _ _ (by decide)]
  decide

/-- A non-`?` token continues the `Jex.cls` loop after its effect. -/
lemma clsRun_cons_nonquery (l : List (List Char)) (tok : List Char)
    (rest : List (List Char)) (h : tok.head? ≠ some '?') :
    Jex.clsRun l (tok :: rest) = Jex.clsRun (Jex.clsStep l tok) rest := by
  simp [Jex.clsRun, h]

/-- The `Jex.cls` loop stops at the first `?` token with the query
answer over the class list produced by the preceding tokens. -/
lemma clsRun_split (pre : List (List Char)) :
    ∀ (l : List (List Char)) (n : List Char) (post : List (List Char)),
      (∀ t ∈ pre, t.head? ≠ some '?') →
      Jex.clsRun l (pre ++ ('?' :: n) :: post) =
        (Jex.clsQuery (pre.foldl Jex.clsStep l) n,
         pre.foldl Jex.clsStep l) := by
  induction pre with
  | nil =>
      intro l n post _
      simp [Jex.clsRun]
  | cons t pre ih =>
      intro l n post h
      rw [List.cons_append,
        clsRun_cons_nonquery _ _ _ (h t (by simp))]
      exact ih _ n post (fun u hu => h u (by simp [hu]))

/-- C10 counterexample: the bare token `?` makes `Jex.cls` return the JS
empty string (the short-circuit value of `name && list.contains(name)`),
which is not a boolean `classList.contains` result. -/
theorem cls_bareQuestion_cex :
    Jex.cls [] [['?']] = (Jex.ClsRet.str [], []) ∧
    ∀ b, Jex.ClsRet.str [] ≠ Jex.ClsRet.bool b := by
  decide

/-- C10 (amended): when the token list contains a token starting with `?`,
`Jex.cls` stops at the first such token, leaving the class list as built
by the preceding tokens only, and returns the `classList.contains` boolean
for the token's class name when that name is nonempty (a bare `?` returns
the falsy empty string instead); `+`, `-` and `~` tokens with nonempty
names add, remove and toggle their class, empty names are ignored, and a
token with no recognised prefix is added whole as a class name. -/
theorem cls_query_semantics :
    (∀ (classes l pre : List (List Char)) (n : List Char)
        (post : List (List Char)),
       Jex.clsTokens classes = pre ++ ('?' :: n) :: post →
       (∀ t ∈ pre, t.head? ≠ some '?') →
       Jex.cls l classes =
         (Jex.clsQuery (pre.foldl Jex.clsStep l) n,
          pre.foldl Jex.clsStep l)) ∧
    (∀ l n, Jex.clsQuery l n =
       if n = [] then Jex.ClsRet.str [] else Jex.ClsRet.bool (l.contains n)) ∧
    (∀ l n, n ≠ [] → Jex.clsStep l ('+' :: n) = Jex.tokenAdd l n) ∧
    (∀ l n, n ≠ [] → Jex.clsStep l ('-' :: n) = Jex.tokenRemove l n) ∧
    (∀ l n, n ≠ [] → Jex.clsStep l ('~' :: n) = Jex.tokenToggle l n) ∧
    (∀ l n, Jex.clsStep l ('+' :: n) = if n = [] then l else Jex.tokenAdd l n) ∧
    (∀ l (c : Char) n, c ≠ '+' → c ≠ '-' → c ≠ '~' →
       Jex.clsStep l (c :: n) = Jex.tokenAdd l (c :: n)) := by
  refine ⟨fun classes l pre n post htok hpre => ?_,
    fun l n => rfl, fun l n hn => ?_, fun l n hn => ?_, fun l n hn => ?_,
    fun l n => ?_, fun l c n hp hm ht => ?_⟩
  · have hcls : classes ≠ [] := by
      intro he
      subst he
      have hnil : Jex.clsTokens [] = [] := by decide
      rw [hnil] at htok
      exact absurd htok.symm (by simp)
    rw [Jex.cls, if_neg hcls, htok, clsRun_split pre l n post hpre]
  · simp [Jex.clsStep, hn]
  · simp [Jex.clsStep, hn]
  · simp [Jex.clsStep, hn]
  · simp [Jex.clsStep]
  · simp [Jex.clsStep, Option.some_inj, hp, hm, ht]

/-- C10 witness: `cls("+a ?b")` on an empty class list adds `a`, then
answers the `?b` query with `false`. -/
theorem cls_query_semantics_witness :
    Jex.cls [] [['+', 'a', ' ', '?', 'b']] =
      (Jex.ClsRet.bool false, [['a']]) := by
  rw [cls_query_semantics.1 [['+', 'a', ' ', '?', 'b']] []
    [['+', 'a']] ['b'] [] (by decide) (by decide)]
  decide

/-- A successful `#eventHandlers` lookup comes from a stored entry. -/
lemma mapGet_mem (m : Jex.HandlerMap) (k : String) (b : List Jex.Handler)
    (h : Jex.mapGet m k = some b) : (k, b) ∈ m := by
  induction m with
  | nil => simp [Jex.mapGet] at h
  | cons p rest ih =>
      rcases p with ⟨k0, b0⟩
      simp only [Jex.mapGet, List.lookup] at h ih
      by_cases hk : k = k0
      · subst hk
        simp only [beq_self_eq_true] at h
        injection h with h2
        subst h2
        exact List.mem_cons_self _ _
      · rw [beq_false_of_ne hk] at h
        exact List.mem_cons_of_mem _ (ih h)

/-- `mapPush` changes exactly the pushed key's bucket, appending there. -/
lemma mapGet_mapPush (m : Jex.HandlerMap) (ev : String) (h : Jex.Handler)
    (k : String) :
    Jex.mapGet (Jex.mapPush m ev h) k =
      if k = ev then some ((Jex.mapGet m ev).getD [] ++ [h])
      else Jex.mapGet m k := by
  induction m with
  | nil =>
      by_cases hk : k = ev
      · subst hk
        simp [Jex.mapPush, Jex.mapGet, List.lookup]
      · simp [Jex.mapPush, Jex.mapGet, List.lookup, hk,
          beq_false_of_ne hk]
  | cons p rest ih =>
      rcases p with ⟨k0, b0⟩
      by_cases h0 : k0 = ev
      · subst h0
        simp only [Jex.mapPush, if_pos rfl]
        by_cases hk : k = k0
        · subst hk
          simp [Jex.mapGet, List.lookup]
        · simp [Jex.mapGet, List.lookup, beq_false_of_ne hk, hk]
      · have hev : (ev == k0) = false :=
          beq_false_of_ne (fun he => h0 he.symm)
        simp only [Jex.mapPush, if_neg h0]
        by_cases hk : k = k0
        · subst hk
          simp only [Jex.mapGet, List.lookup, beq_self_eq_true]
          rw [if_neg h0]
        · simp only [Jex.mapGet, List.lookup, beq_false_of_ne hk,
            if_false] at ih ⊢
          rw [ih, hev]

/-- `mapDelete` keeps every other key intact. -/
lemma mapGet_mapDelete_ne (m : Jex.HandlerMap) (ev k : String)
    (hk : k ≠ ev) :
    Jex.mapGet (Jex.mapDelete m ev) k = Jex.mapGet m k := by
  induction m with
  | nil => rfl
  | cons p rest ih =>
      rcases p with ⟨k0, b0⟩
      simp only [Jex.mapDelete, List.filter_cons, decide_eq_true_eq] at ih ⊢
      by_cases h0 : k0 = ev
      · have hkk0 : k ≠ k0 := fun he => hk (he.trans h0)
        rw [if_neg (fun hne => hne h0)]
        rw [ih]
        simp [Jex.mapGet, List.lookup, beq_false_of_ne hkk0]
      · rw [if_pos h0]
        by_cases hkk0 : k = k0
        · subst hkk0
          simp [Jex.mapGet, List.lookup]
        · simp only [Jex.mapGet, List.lookup, beq_false_of_ne hkk0]
          exact ih

/-- `mapSetBucket` keeps every other key intact. -/
lemma mapGet_mapSetBucket_ne (m : Jex.HandlerMap) (ev : String)
    (b2 : List Jex.Handler) (k : String) (hk : k ≠ ev) :
    Jex.mapGet (Jex.mapSetBucket m ev b2) k = Jex.mapGet m k := by
  induction m with
  | nil => rfl
  | cons p rest ih =>
      rcases p with ⟨k0, b0⟩
      simp only [Jex.mapSetBucket, List.map_cons] at ih ⊢
      by_cases h0 : k0 = ev
      · have hkk0 : k ≠ k0 := fun he => hk (he.trans h0)
        rw [if_pos h0]
        simp only [Jex.mapGet, List.lookup, beq_false_of_ne hkk0]
        exact ih
      · rw [if_neg h0]
        by_cases hkk0 : k = k0
        · subst hkk0
          simp [Jex.mapGet, List.lookup]
        · simp only [Jex.mapGet, List.lookup, beq_false_of_ne hkk0]
          exact ih

/-- `mapSetBucket` replaces the bucket of a present key. -/
lemma mapGet_mapSetBucket_self (m : Jex.HandlerMap) (ev : String)
    (b b2 : List Jex.Handler) (h : Jex.mapGet m ev = some b) :
    Jex.mapGet (Jex.mapSetBucket m ev b2) ev = some b2 := by
  induction m with
  | nil => simp [Jex.mapGet, List.lookup] at h
  | cons p rest ih =>
      rcases p with ⟨k0, b0⟩
      simp only [Jex.mapSetBucket, List.map_cons] at ih ⊢
      by_cases h0 : k0 = ev
      · subst h0
        rw [if_pos rfl]
        simp [Jex.mapGet, List.lookup]
      · rw [if_neg h0]
        have hev : (ev == k0) = false :=
          beq_false_of_ne (fun he => h0 he.symm)
        simp only [Jex.mapGet, List.lookup, hev] at h ⊢
        exact ih h

/-- When `Jex.off` finds a handler with the requested `fn`, the bucket
splits around that first occurrence. -/
lemma removeFirstFn_split (bucket : List Jex.Handler) (fn : Nat)
    (h : Jex.Handler) (bucket2 : List Jex.Handler)
    (hr : Jex.removeFirstFn bucket fn = (some h, bucket2)) :
    ∃ pre post, bucket = pre ++ h :: post ∧ bucket2 = pre ++ post ∧
      h.fn = fn := by
  induction bucket generalizing bucket2 with
  | nil => simp [Jex.removeFirstFn] at hr
  | cons h0 rest ih =>
      by_cases h0fn : h0.fn = fn
      · simp only [Jex.removeFirstFn, if_pos h0fn] at hr
        rw [Prod.mk.injEq] at hr
        obtain ⟨heq1, heq2⟩ := hr
        have heq1 : h0 = h := Option.some.inj heq1
        subst heq1
        exact ⟨[], rest, rfl, by simp [heq2.symm], h0fn⟩
      · simp only [Jex.removeFirstFn, if_neg h0fn] at hr
        rw [Prod.mk.injEq] at hr
        obtain ⟨h1, h2⟩ := hr
        have hrec : Jex.removeFirstFn rest fn =
            (some h, (Jex.removeFirstFn rest fn).2) := by
          rw [← h1]
        obtain ⟨pre, post, hb, hb2, hfn⟩ := ih _ hrec
        exact ⟨h0 :: pre, post, by simp [hb], by simp [← h2, hb2], hfn⟩

/-- `eraseFirst` only removes. -/
lemma mem_of_mem_eraseFirst {α : Type} [DecidableEq α]
    (ls : List α) (y x : α) (hx : x ∈ eraseFirst ls y) : x ∈ ls := by
  induction ls with
  | nil => simp [eraseFirst] at hx
  | cons z rest ih =>
      simp only [eraseFirst] at hx
      by_cases hz : z = y
      · rw [if_pos hz] at hx
        exact List.mem_cons_of_mem _ hx
      · rw [if_neg hz] at hx
        rcases List.mem_cons.mp hx with rfl | hx2
        · exact List.mem_cons_self _ _
        · exact List.mem_cons_of_mem _ (ih hx2)

/-- `eraseFirst` preserves Nodup. -/
lemma nodup_eraseFirst {α : Type} [DecidableEq α]
    (ls : List α) (y : α) (hnd : ls.Nodup) : (eraseFirst ls y).Nodup := by
  induction ls with
  | nil => simp [eraseFirst]
  | cons z rest ih =>
      simp only [eraseFirst]
      by_cases hz : z = y
      · rw [if_pos hz]
        exact hnd.of_cons
      · rw [if_neg hz]
        refine List.nodup_cons.mpr ⟨?_, ih hnd.of_cons⟩
        intro hmem
        exact (List.nodup_cons.mp hnd).1 (mem_of_mem_eraseFirst _ _ _ hmem)

/-- Membership after `eraseFirst` on a Nodup list. -/
lemma mem_eraseFirst_iff {α : Type} [DecidableEq α]
    (ls : List α) (y x : α) (hnd : ls.Nodup) :
    x ∈ eraseFirst ls y ↔ x ≠ y ∧ x ∈ ls := by
  induction ls with
  | nil => simp [eraseFirst]
  | cons z rest ih =>
      obtain ⟨hz, hrest⟩ := List.nodup_cons.mp hnd
      simp only [eraseFirst]
      by_cases hzy : z = y
      · subst hzy
        rw [if_pos rfl]
        constructor
        · intro hx
          exact ⟨fun he => hz (he ▸ hx), List.mem_cons_of_mem _ hx⟩
        · rintro ⟨hne, hx⟩
          rcases List.mem_cons.mp hx with rfl | hx2
          · exact absurd rfl hne
          · exact hx2
      · rw [if_neg hzy]
        constructor
        · intro hx
          rcases List.mem_cons.mp hx with rfl | hx2
          · exact ⟨fun he => hzy he, List.mem_cons_self _ _⟩
          · obtain ⟨hne, hmem⟩ := (ih hrest).mp hx2
            exact ⟨hne, List.mem_cons_of_mem _ hmem⟩
        · rintro ⟨hne, hx⟩
          rcases List.mem_cons.mp hx with rfl | hx2
          · exact List.mem_cons_self _ _
          · exact List.mem_cons_of_mem _ ((ih hrest).mpr ⟨hne, hx2⟩)

/-- Folding `removeEventListener` calls never adds listeners. -/
lemma mem_foldl_erase {α : Type} [DecidableEq α]
    (keys : List α) (ls : List α) (x : α)
    (hx : x ∈ keys.foldl (fun acc k => eraseFirst acc k) ls) : x ∈ ls := by
  induction keys generalizing ls with
  | nil => simpa using hx
  | cons k rest ih => exact mem_of_mem_eraseFirst _ _ _ (ih (eraseFirst ls k) hx)

/-- Nodup lists stay Nodup under the `removeEventListener` fold. -/
lemma nodup_foldl_erase {α : Type} [DecidableEq α]
    (keys : List α) (ls : List α) (hnd : ls.Nodup) :
    (keys.foldl (fun acc k => eraseFirst acc k) ls).Nodup := by
  induction keys generalizing ls with
  | nil => simpa using hnd
  | cons k rest ih => exact ih _ (nodup_eraseFirst _ _ hnd)

/-- Erasing every element of a Nodup list empties it. -/
lemma foldl_erase_eq_nil {α : Type} [DecidableEq α]
    (keys : List α) (ls : List α) (hnd : ls.Nodup)
    (hsub : ∀ x ∈ ls, x ∈ keys) :
    keys.foldl (fun acc k => eraseFirst acc k) ls = [] := by
  induction keys generalizing ls with
  | nil =>
      simpa using List.eq_nil_iff_forall_not_mem.mpr
        (fun x hx => by simpa using hsub x hx)
  | cons k rest ih =>
      refine ih (eraseFirst ls k) (nodup_eraseFirst _ _ hnd) (fun x hx => ?_)
      obtain ⟨hxne, hxls⟩ := (mem_eraseFirst_iff _ _ _ hnd).mp hx
      rcases List.mem_cons.mp (hsub x hxls) with h | h
      · exact absurd h hxne
      · exact h

/-- Membership in the flattened registry. -/
lemma mem_regPairs_iff (m : Jex.HandlerMap) (x : String × Jex.Handler) :
    x ∈ Jex.regPairs m ↔ ∃ b, (x.1, b) ∈ m ∧ x.2 ∈ b := by
  simp only [Jex.regPairs, List.mem_flatMap, List.mem_map]
  constructor
  · rintro ⟨p, hp, h, hh, rfl⟩
    exact ⟨p.2, hp, hh⟩
  · rintro ⟨b, hb, hx2⟩
    exact ⟨(x.1, b), hb, x.2, hx2, rfl⟩

/-- The nested cleanup fold of `Jex.remove()` is the flat fold over all
registered `(event, handler)` pairs. -/
lemma cleanup_fold_eq (m : Jex.HandlerMap) (ls : Jex.DomListeners) :
    m.foldl
        (fun ls p => p.2.foldl (fun ls2 h => Jex.removeListener ls2 p.1 h) ls)
        ls =
      (Jex.regPairs m).foldl (fun acc x => eraseFirst acc x) ls := by
  induction m generalizing ls with
  | nil => rfl
  | cons p rest ih =>
      rcases p with ⟨k, b⟩
      simp only [List.foldl_cons, Jex.regPairs, List.flatMap_cons,
        List.foldl_append]
      rw [← Jex.regPairs]
      rw [← ih]
      congr 1
      rw [List.foldl_map]
      rfl

/-- An erased listener of a Nodup list never survives the erase fold. -/
lemma not_mem_foldl_erase {α : Type} [DecidableEq α]
    (keys : List α) (ls : List α) (x : α) (hnd : ls.Nodup)
    (hxk : x ∈ keys) :
    x ∉ keys.foldl (fun acc k => eraseFirst acc k) ls := by
  induction keys generalizing ls with
  | nil => simp at hxk
  | cons k rest ih =>
      intro hmem
      rcases List.mem_cons.mp hxk with rfl | hxrest
      · by_cases hxr : x ∈ rest
        · exact (ih _ (nodup_eraseFirst _ _ hnd) hxr) hmem
        · have : x ∈ eraseFirst ls x := mem_foldl_erase rest _ x hmem
          exact ((mem_eraseFirst_iff _ _ _ hnd).mp this).1 rfl
      · exact (ih _ (nodup_eraseFirst _ _ hnd) hxrest) hmem

/-- A fresh wrapper satisfies the invariant. -/
lemma regInv_fresh (p : Option Nat) : RegInv (Jex.freshElem p) :=
  ⟨List.nodup_nil, fun x hx => absurd hx (List.not_mem_nil x)⟩

/-- `Jex.off` preserves the invariant. -/
lemma regInv_jexOff (s : Jex.JexElem) (ev : String) (fn? : Option Nat)
    (hs : RegInv s) : RegInv (Jex.jexOff s ev fn?) := by
  obtain ⟨hnd, hcov⟩ := hs
  by_cases he : ev = ""
  · simpa [Jex.jexOff, he] using ⟨hnd, hcov⟩
  · cases hbk : Jex.mapGet s.eventHandlers ev with
    | none => simpa [Jex.jexOff, he, hbk] using ⟨hnd, hcov⟩
    | some bucket =>
        cases fn? with
        | none =>
            simp only [Jex.jexOff, if_neg he, hbk]
            have hfold : bucket.foldl
                (fun ls h => Jex.removeListener ls ev h) s.domListeners =
                (bucket.map (fun h => (ev, h))).foldl
                  (fun acc k => eraseFirst acc k) s.domListeners := by
              rw [List.foldl_map]
              rfl
            constructor
            · dsimp only
              rw [hfold]
              exact nodup_foldl_erase _ _ hnd
            · dsimp only
              intro x hx
              rw [hfold] at hx
              have hxdom : x ∈ s.domListeners := mem_foldl_erase _ _ _ hx
              obtain ⟨b, hb, hxb⟩ := hcov x hxdom
              by_cases hxe : x.1 = ev
              · exfalso
                rw [hxe, hbk] at hb
                have hbb : b = bucket := (Option.some.inj hb).symm
                subst hbb
                have hxk : x ∈ b.map (fun h => (ev, h)) := by
                  refine List.mem_map.mpr ⟨x.2, hxb, ?_⟩
                  rw [← hxe]
                exact not_mem_foldl_erase _ _ _ hnd hxk hx
              · exact ⟨b, by
                  rw [mapGet_mapDelete_ne _ _ _ hxe]; exact hb, hxb⟩
        | some fn =>
            cases hrf : Jex.removeFirstFn bucket fn with
            | mk found bucket2 =>
                cases found with
                | none =>
                    simpa [Jex.jexOff, he, hbk, hrf] using ⟨hnd, hcov⟩
                | some h =>
                    simp only [Jex.jexOff, if_neg he, hbk, hrf]
                    constructor
                    · exact nodup_eraseFirst _ _ hnd
                    · dsimp only
                      intro x hx
                      have hxdom : x ∈ s.domListeners :=
                        mem_of_mem_eraseFirst _ _ _ hx
                      obtain ⟨b, hb, hxb⟩ := hcov x hxdom
                      by_cases hxe : x.1 = ev
                      · have hbb : b = bucket := by
                          rw [hxe, hbk] at hb
                          exact (Option.some.inj hb).symm
                        subst hbb
                        obtain ⟨pre, post, hsplit, hb2, hfn⟩ :=
                          removeFirstFn_split b fn h bucket2 hrf
                        have hxneq : x ≠ (ev, h) := by
                          intro heq
                          rw [heq] at hx
                          exact ((mem_eraseFirst_iff _ _ _ hnd).mp hx).1 rfl
                        have hx2ne : x.2 ≠ h := by
                          intro h2
                          exact hxneq (Prod.ext hxe h2)
                        have hx2 : x.2 ∈ bucket2 := by
                          rw [hb2]
                          rw [hsplit] at hxb
                          rcases List.mem_append.mp hxb with h1 | h1
                          · exact List.mem_append.mpr (Or.inl h1)
                          · rcases List.mem_cons.mp h1 with h2 | h2
                            · exact absurd h2 hx2ne
                            · exact List.mem_append.mpr (Or.inr h2)
                        refine ⟨bucket2, ?_, hx2⟩
                        rw [hxe]
                        exact mapGet_mapSetBucket_self _ _ _ _ hbk
                      · exact ⟨b, by
                          rw [mapGet_mapSetBucket_ne _ _ _ _ hxe]
                          exact hb, hxb⟩

/-- `Jex.on` preserves the invariant. -/
lemma regInv_jexOn (s : Jex.JexElem) (ev : String) (h : Jex.Handler)
    (hs : RegInv s) : RegInv (Jex.jexOn s ev h) := by
  by_cases he : ev = ""
  · simpa [Jex.jexOn, he] using hs
  · by_cases hd : ev.startsWith "-"
    · simp only [Jex.jexOn, if_neg he, if_pos hd]
      exact regInv_jexOff _ _ _ hs
    · simp only [Jex.jexOn, if_neg he, if_neg hd]
      obtain ⟨hnd, hcov⟩ := hs
      have hkeep : ∀ x ∈ s.domListeners,
          ∃ b, Jex.mapGet (Jex.mapPush s.eventHandlers ev h) x.1 = some b ∧
            x.2 ∈ b := by
        intro x hx
        obtain ⟨b, hb, hxb⟩ := hcov x hx
        rw [mapGet_mapPush]
        by_cases hxe : x.1 = ev
        · refine ⟨(Jex.mapGet s.eventHandlers ev).getD [] ++ [h],
            by rw [if_pos hxe], ?_⟩
          rw [hxe] at hb
          rw [hb]
          exact List.mem_append.mpr (Or.inl hxb)
        · exact ⟨b, by rw [if_neg hxe]; exact hb, hxb⟩
      constructor
      · dsimp only
        unfold Jex.addListener
        split
        · exact hnd
        · rename_i hmem
          rw [List.nodup_append]
          exact ⟨hnd, List.nodup_singleton _,
            fun a ha hb => hmem (by rcases List.mem_singleton.mp hb with rfl; exact ha)⟩
      · dsimp only
        intro x hx
        unfold Jex.addListener at hx
        split at hx
        · exact hkeep x hx
        · rcases List.mem_append.mp hx with hx1 | hx2
          · exact hkeep x hx1
          · rcases List.mem_singleton.mp hx2 with rfl
            rw [mapGet_mapPush]
            exact ⟨(Jex.mapGet s.eventHandlers ev).getD [] ++ [h],
              by rw [if_pos rfl], List.mem_append.mpr (Or.inr (List.mem_singleton.mpr rfl))⟩

/-- Every state reachable by `on`/`off` calls from a fresh wrapper
satisfies the invariant. -/
lemma regInv_foldl (ops : List Jex.JexOp) :
    ∀ s, RegInv s → RegInv (ops.foldl Jex.applyOp s) := by
  induction ops with
  | nil => intro s hs; simpa using hs
  | cons op rest ih =>
      intro s hs
      refine ih _ ?_
      rcases op with ⟨ev, h⟩ | ⟨ev, fn?⟩
      · exact regInv_jexOn s ev h hs
      · exact regInv_jexOff s ev fn? hs

/-- Under the invariant, the cleanup phase of `Jex.remove()` detaches
every listener from the DOM element. -/
lemma cleanup_domListeners_nil (s : Jex.JexElem) (hs : RegInv s) :
    (Jex.cleanupHandlers s).domListeners = [] := by
  obtain ⟨hnd, hcov⟩ := hs
  show s.eventHandlers.foldl
      (fun ls p => p.2.foldl (fun ls2 h => Jex.removeListener ls2 p.1 h) ls)
      s.domListeners = []
  rw [cleanup_fold_eq]
  refine foldl_erase_eq_nil _ _ hnd (fun x hx => ?_)
  obtain ⟨b, hb, hxb⟩ := hcov x hx
  exact (mem_regPairs_iff _ _).mpr ⟨b, mapGet_mem _ _ _ hb, hxb⟩

/-- C1: on any wrapper built by a sequence of `on`/`off` calls from a
fresh element, `Jex.remove()` first performs the handler cleanup and only
then detaches from the parent; the cleanup issues one
`removeEventListener` per registry entry with the stored handler function
and options; afterwards the element has no attached listeners left, the
registry is empty, and the element is detached. -/
theorem remove_cleans_up (ops : List Jex.JexOp) (parent : Option Nat) :
    (Jex.jexRemove (ops.foldl Jex.applyOp (Jex.freshElem parent)) =
      Jex.detachParent
        (Jex.cleanupHandlers (ops.foldl Jex.applyOp (Jex.freshElem parent)))) ∧
    ((Jex.cleanupHandlers
        (ops.foldl Jex.applyOp (Jex.freshElem parent))).domListeners =
      (Jex.regPairs
          (ops.foldl Jex.applyOp (Jex.freshElem parent)).eventHandlers).foldl
        (fun ls x => Jex.removeListener ls x.1 x.2)
        (ops.foldl Jex.applyOp (Jex.freshElem parent)).domListeners) ∧
    (Jex.jexRemove
        (ops.foldl Jex.applyOp (Jex.freshElem parent))).domListeners = [] ∧
    (Jex.jexRemove
        (ops.foldl Jex.applyOp (Jex.freshElem parent))).eventHandlers = [] ∧
    (Jex.jexRemove
        (ops.foldl Jex.applyOp (Jex.freshElem parent))).parent = none := by
  have hinv : RegInv (ops.foldl Jex.applyOp (Jex.freshElem parent)) :=
    regInv_foldl ops _ (regInv_fresh parent)
  refine ⟨rfl, ?_, ?_, rfl, rfl⟩
  · exact cleanup_fold_eq _ _
  · show (Jex.cleanupHandlers
      (ops.foldl Jex.applyOp (Jex.freshElem parent))).domListeners = []
    exact cleanup_domListeners_nil _ hinv

/-- C4 counterexample: with `maxVisible = 1` and queueing enabled, a toast
whose removal is started twice (close button clicked again during the exit
animation) decrements `#visibleToasts` twice, letting two later `show`
calls each pass the `visibleToasts < maxVisible` check: two toasts end up
in the DOM at once.  The trace is not `goodTrace` precisely because of the
repeated removal start. -/
theorem toast_cap_cex :
    (JexToast.runTrace
        { maxVisible := 1, duration := 5000, queueMessages := true,
          detectDuplicates := true }
        JexToast.toastInit
        [JexToast.ToastEvent.show "info" "A" none 0,
         JexToast.ToastEvent.removeStart 0,
         JexToast.ToastEvent.removeStart 0,
         JexToast.ToastEvent.removeFinish 0 2000,
         JexToast.ToastEvent.removeFinish 0 4000,
         JexToast.ToastEvent.show "info" "B" none 6000,
         JexToast.ToastEvent.show "info" "C" none 8000]).active.length = 2 ∧
    JexToast.goodTrace
        { maxVisible := 1, duration := 5000, queueMessages := true,
          detectDuplicates := true }
        JexToast.toastInit
        [JexToast.ToastEvent.show "info" "A" none 0,
         JexToast.ToastEvent.removeStart 0,
         JexToast.ToastEvent.removeStart 0,
         JexToast.ToastEvent.removeFinish 0 2000,
         JexToast.ToastEvent.removeFinish 0 4000,
         JexToast.ToastEvent.show "info" "B" none 6000,
         JexToast.ToastEvent.show "info" "C" none 8000] = false := by
  decide

/-- C5 counterexample: a toast shown with a short duration and already
removed leaves `#lastToast` behind; a duplicate `show` within the 1000ms
window then finds no matching active toast: nothing is pulsed, no timer is
reset, no toast is created — the state is completely unchanged and the
message is dropped. -/
theorem toast_duplicate_cex :
    (JexToast.isDuplicate
        (JexToast.runTrace JexToast.defaultToastOptions JexToast.toastInit
          [JexToast.ToastEvent.show "info" "A" (some 100) 0,
           JexToast.ToastEvent.removeStart 0,
           JexToast.ToastEvent.removeFinish 0 500])
        "info" "A" 800 = true) ∧
    JexToast.defaultToastOptions.detectDuplicates = true ∧
    (JexToast.runTrace JexToast.defaultToastOptions JexToast.toastInit
        [JexToast.ToastEvent.show "info" "A" (some 100) 0,
         JexToast.ToastEvent.removeStart 0,
         JexToast.ToastEvent.removeFinish 0 500]).active = [] ∧
    JexToast.toastStep JexToast.defaultToastOptions
        (JexToast.runTrace JexToast.defaultToastOptions JexToast.toastInit
          [JexToast.ToastEvent.show "info" "A" (some 100) 0,
           JexToast.ToastEvent.removeStart 0,
           JexToast.ToastEvent.removeFinish 0 500])
        (JexToast.ToastEvent.show "info" "A" none 800) =
      JexToast.runTrace JexToast.defaultToastOptions JexToast.toastInit
        [JexToast.ToastEvent.show "info" "A" (some 100) 0,
         JexToast.ToastEvent.removeStart 0,
         JexToast.ToastEvent.removeFinish 0 500] := by
  decide

/-- A successful `Map.get` means the key is among the map's keys. -/
lemma lookup_mem_keys {β : Type} (l : List (Nat × β)) (id : Nat) (d : β)
    (h : List.lookup id l = some d) : id ∈ l.map Prod.fst := by
  induction l with
  | nil => simp [List.lookup] at h
  | cons p rest ih =>
      rcases p with ⟨k, b⟩
      simp only [List.lookup] at h
      by_cases hk : id = k
      · subst hk
        exact List.mem_cons_self _ _
      · rw [beq_false_of_ne hk] at h
        exact List.mem_cons_of_mem _ (ih h)

/-- Updating one entry's data in place keeps the key list. -/
lemma map_fst_set (l : List (Nat × JexToast.ToastData)) (id : Nat)
    (x : JexToast.ToastData) :
    ((l.map (fun p => if p.1 = id then (p.1, x) else p)).map Prod.fst) =
      l.map Prod.fst := by
  induction l with
  | nil => rfl
  | cons p rest ih =>
      simp only [List.map_cons, ih]
      congr 1
      split <;> rfl

/-- Deleting a key from the entry list filters it from the key list. -/
lemma map_fst_filter_ne (l : List (Nat × JexToast.ToastData)) (id : Nat) :
    ((l.filter (fun p => p.1 ≠ id)).map Prod.fst) =
      (l.map Prod.fst).filter (fun k => k ≠ id) := by
  induction l with
  | nil => rfl
  | cons p rest ih =>
      simp only [List.filter_cons, List.map_cons]
      by_cases hp : p.1 = id
      · rw [decide_eq_false (by simpa using hp)]
        simpa using ih
      · rw [decide_eq_true (show p.1 ≠ id from hp)]
        simpa using ih

/-- Removing a present key from a Nodup key list drops exactly one. -/
lemma filter_ne_length_keys (keys : List Nat) (id : Nat)
    (hnd : keys.Nodup) (hid : id ∈ keys) :
    (keys.filter (fun k => k ≠ id)).length + 1 = keys.length := by
  induction keys with
  | nil => simp at hid
  | cons k rest ih =>
      obtain ⟨hk, hrest⟩ := List.nodup_cons.mp hnd
      simp only [List.filter_cons]
      by_cases hkid : k = id
      · subst hkid
        rw [decide_eq_false (by simp)]
        simp only [Bool.false_eq_true, if_false, List.length_cons]
        rw [List.filter_eq_self.mpr (fun x hx => by
          simp only [decide_eq_true_eq]
          intro he
          exact hk (he ▸ hx))]
      · rw [decide_eq_true (show k ≠ id from hkid)]
        simp only [if_true, List.length_cons]
        have hid2 : id ∈ rest := by
          rcases List.mem_cons.mp hid with rfl | h2
          · exact absurd rfl hkid
          · exact h2
        rw [← ih hrest hid2]

/-- `#handleDuplicate` keeps the set of active toast elements. -/
lemma pulseFirstMatch_map_fst (opts : JexToast.ToastOptions) (t m : String)
    (l : List (Nat × JexToast.ToastData)) :
    ((JexToast.pulseFirstMatch opts t m l).map Prod.fst) = l.map Prod.fst := by
  induction l with
  | nil => rfl
  | cons p rest ih =>
      rcases p with ⟨id, d⟩
      simp only [JexToast.pulseFirstMatch]
      split
      · simp
      · simp [ih]

/-- `#handleDuplicate` keeps the number of active toasts. -/
lemma pulseFirstMatch_length (opts : JexToast.ToastOptions) (t m : String)
    (l : List (Nat × JexToast.ToastData)) :
    (JexToast.pulseFirstMatch opts t m l).length = l.length := by
  have h := pulseFirstMatch_map_fst opts t m l
  have h1 := congrArg List.length h
  simpa using h1

/-- `#handleDuplicate` pulses the first matching active toast and re-arms
its timer with the default duration, leaving everything else alone. -/
lemma pulseFirstMatch_split (opts : JexToast.ToastOptions) (t m : String)
    (pre : List (Nat × JexToast.ToastData)) :
    ∀ (id : Nat) (dat : JexToast.ToastData)
      (post : List (Nat × JexToast.ToastData)),
      (∀ q ∈ pre, ¬(q.2.type = t ∧ q.2.message = m)) →
      dat.type = t → dat.message = m →
      JexToast.pulseFirstMatch opts t m (pre ++ (id, dat) :: post) =
        pre ++ (id, { dat with pulses := dat.pulses + 1,
                               timer := some opts.duration }) :: post := by
  induction pre with
  | nil =>
      intro id dat post _ ht hm
      simp only [List.nil_append, JexToast.pulseFirstMatch]
      rw [if_pos]
      simp [ht, hm]
  | cons q pre ih =>
      intro id dat post hpre ht hm
      rcases q with ⟨qid, qd⟩
      simp only [List.cons_append, JexToast.pulseFirstMatch]
      rw [if_neg]
      · exact congrArg (List.cons (qid, qd))
          (ih id dat post (fun u hu => hpre u (List.mem_cons_of_mem _ hu))
            ht hm)
      · have hq := hpre (qid, qd) (List.mem_cons_self _ _)
        simp only [Bool.and_eq_true, beq_iff_eq]
        exact fun hc => hq hc

/-- A duplicate with no matching active toast leaves the map unchanged. -/
lemma pulseFirstMatch_nomatch (opts : JexToast.ToastOptions) (t m : String)
    (l : List (Nat × JexToast.ToastData))
    (h : ∀ q ∈ l, ¬(q.2.type = t ∧ q.2.message = m)) :
    JexToast.pulseFirstMatch opts t m l = l := by
  induction l with
  | nil => rfl
  | cons q rest ih =>
      rcases q with ⟨qid, qd⟩
      simp only [JexToast.pulseFirstMatch]
      rw [if_neg]
      · rw [ih (fun u hu => h u (List.mem_cons_of_mem _ hu))]
      · have hq := h (qid, qd) (List.mem_cons_self _ _)
        simp only [Bool.and_eq_true, beq_iff_eq]
        exact fun hc => hq hc

/-- `#showToast` under a free visible slot preserves the invariant. -/
lemma toastInv_showToast (opts : JexToast.ToastOptions)
    (s : JexToast.ToastState) (t m : String) (dur now : Nat)
    (hinv : ToastInv opts s)
    (hlt : s.visibleToasts < (opts.maxVisible : Int)) :
    ToastInv opts (JexToast.showToast opts s t m dur now) := by
  obtain ⟨hvis, hlen, hknd, hpnd, hpk, hbound⟩ := hinv
  have hlenlt : s.active.length < opts.maxVisible := by
    rw [hvis] at hlt
    exact_mod_cast hlt
  refine ⟨?_, ?_, ?_, ?_, ?_, ?_⟩ <;>
    dsimp only [JexToast.showToast, ToastInv]
  · simp only [List.length_append, List.length_cons, List.length_nil]
    rw [hvis]
    push_cast
    ring
  · simp only [List.length_append, List.length_cons, List.length_nil]
    omega
  · rw [List.map_append]
    simp only [List.map_cons, List.map_nil]
    rw [List.nodup_append]
    refine ⟨hknd, List.nodup_singleton _, fun a ha hb => ?_⟩
    rcases List.mem_singleton.mp hb with rfl
    exact absurd (hbound _ ha) (lt_irrefl _)
  · exact hpnd
  · intro id hid
    rw [List.map_append]
    exact List.mem_append.mpr (Or.inl (hpk id hid))
  · intro id hid
    rw [List.map_append] at hid
    rcases List.mem_append.mp hid with h1 | h2
    · exact Nat.lt_succ_of_lt (hbound id h1)
    · simp only [List.map_cons, List.map_nil, List.mem_singleton] at h2
      subst h2
      exact Nat.lt_succ_self _

/-- The invariant ignores the queue field. -/
lemma toastInv_setQueue (opts : JexToast.ToastOptions)
    (s : JexToast.ToastState) (q : List (String × String × Nat))
    (hinv : ToastInv opts s) : ToastInv opts { s with queue := q } :=
  hinv

/-- The invariant ignores the `isVisible` flag. -/
lemma toastInv_setVisibleFlag (opts : JexToast.ToastOptions)
    (s : JexToast.ToastState) (b : Bool)
    (hinv : ToastInv opts s) : ToastInv opts { s with isVisible := b } :=
  hinv

/-- `#processQueue` preserves the invariant. -/
lemma toastInv_processQueue (opts : JexToast.ToastOptions)
    (s : JexToast.ToastState) (now : Nat) (hinv : ToastInv opts s) :
    ToastInv opts (JexToast.processQueue opts s now) := by
  cases hq : s.queue with
  | nil => simpa [JexToast.processQueue, hq] using hinv
  | cons entry rest =>
      rcases entry with ⟨t, m, dur⟩
      simp only [JexToast.processQueue, hq]
      split
      · rename_i hlt
        exact toastInv_showToast _ _ _ _ _ _
          (toastInv_setQueue _ _ _ hinv) hlt
      · exact hinv

/-- The synchronous start of a removal that is not already pending
preserves the invariant. -/
lemma toastInv_removeStart (opts : JexToast.ToastOptions)
    (s : JexToast.ToastState) (id : Nat) (hinv : ToastInv opts s)
    (hgood : id ∉ s.pending) :
    ToastInv opts (JexToast.removeStart s id) := by
  obtain ⟨hvis, hlen, hknd, hpnd, hpk, hbound⟩ := hinv
  cases hga : JexToast.activeGet s id with
  | none => simpa [JexToast.removeStart, hga] using
      ⟨hvis, hlen, hknd, hpnd, hpk, hbound⟩
  | some d =>
      have hidk : id ∈ s.active.map Prod.fst :=
        lookup_mem_keys _ _ _ hga
      simp only [JexToast.removeStart, hga]
      refine ⟨?_, ?_, ?_, ?_, ?_, ?_⟩ <;> dsimp only
      · rw [List.length_map]
        exact hvis
      · rw [List.length_map]
        exact hlen
      · rw [map_fst_set]
        exact hknd
      · rw [List.nodup_append]
        exact ⟨hpnd, List.nodup_singleton _, fun a ha hb => by
          rcases List.mem_singleton.mp hb with rfl
          exact hgood ha⟩
      · intro x hx
        rw [map_fst_set]
        rcases List.mem_append.mp hx with h1 | h2
        · exact hpk x h1
        · rcases List.mem_singleton.mp h2 with rfl
          exact hidk
      · intro x hx
        rw [map_fst_set] at hx
        exact hbound x hx

/-- The deferred completion of a scheduled removal preserves the
invariant. -/
lemma toastInv_removeFinish (opts : JexToast.ToastOptions)
    (s : JexToast.ToastState) (id : Nat) (now : Nat)
    (hinv : ToastInv opts s) (hp : id ∈ s.pending) :
    ToastInv opts (JexToast.removeFinish opts s id now) := by
  obtain ⟨hvis, hlen, hknd, hpnd, hpk, hbound⟩ := hinv
  have hidk : id ∈ s.active.map Prod.fst := hpk id hp
  have hkeys : ((s.active.filter (fun p => p.1 ≠ id)).map Prod.fst) =
      (s.active.map Prod.fst).filter (fun k => k ≠ id) :=
    map_fst_filter_ne _ _
  have hlen1 : (s.active.filter (fun p => p.1 ≠ id)).length + 1 =
      s.active.length := by
    have h1 : (s.active.filter (fun p => p.1 ≠ id)).length =
        ((s.active.filter (fun p => p.1 ≠ id)).map Prod.fst).length :=
      (List.length_map _ _).symm
    rw [h1, hkeys, filter_ne_length_keys _ _ hknd hidk, List.length_map]
  have hinv1 : ToastInv opts
      { s with active := s.active.filter (fun p => p.1 ≠ id),
               pending := eraseFirst s.pending id,
               visibleToasts := s.visibleToasts - 1 } := by
    refine ⟨?_, ?_, ?_, ?_, ?_, ?_⟩ <;> dsimp only
    · rw [hvis]
      omega
    · omega
    · rw [hkeys]
      exact hknd.filter _
    · exact nodup_eraseFirst _ _ hpnd
    · intro x hx
      obtain ⟨hxne, hxp⟩ := (mem_eraseFirst_iff _ _ _ hpnd).mp hx
      rw [hkeys]
      exact List.mem_filter.mpr ⟨hpk x hxp, by simpa using hxne⟩
    · intro x hx
      rw [hkeys] at hx
      exact hbound x (List.mem_filter.mp hx).1
  simp only [JexToast.removeFinish]
  split
  · exact toastInv_processQueue _ _ _ (toastInv_setVisibleFlag _ _ _ hinv1)
  · exact toastInv_processQueue _ _ _ hinv1

/-- `#handleDuplicate` preserves the invariant. -/
lemma toastInv_handleDuplicate (opts : JexToast.ToastOptions)
    (s : JexToast.ToastState) (t m : String) (hinv : ToastInv opts s) :
    ToastInv opts (JexToast.handleDuplicate opts s t m) := by
  obtain ⟨hvis, hlen, hknd, hpnd, hpk, hbound⟩ := hinv
  refine ⟨?_, ?_, ?_, hpnd, ?_, ?_⟩ <;>
    dsimp only [JexToast.handleDuplicate]
  · rw [pulseFirstMatch_length]
    exact hvis
  · rw [pulseFirstMatch_length]
    exact hlen
  · rw [pulseFirstMatch_map_fst]
    exact hknd
  · intro x hx
    rw [pulseFirstMatch_map_fst]
    exact hpk x hx
  · intro x hx
    rw [pulseFirstMatch_map_fst] at hx
    exact hbound x hx

/-- `show` preserves the invariant when queueing is enabled. -/
lemma toastInv_toastShow (opts : JexToast.ToastOptions)
    (hq : opts.queueMessages = true) (s : JexToast.ToastState)
    (t m : String) (dur : Option Nat) (now : Nat)
    (hinv : ToastInv opts s) :
    ToastInv opts (JexToast.toastShow opts s t m dur now) := by
  unfold JexToast.toastShow
  rw [hq]
  simp only [if_true]
  split
  · exact toastInv_handleDuplicate _ _ _ _ hinv
  · split
    · exact toastInv_setQueue _ _ _ hinv
    · rename_i hle
      exact toastInv_showToast _ _ _ _ _ _ hinv (lt_of_not_le hle)

/-- Every good event preserves the invariant (queueing enabled). -/
lemma toastInv_step (opts : JexToast.ToastOptions)
    (hq : opts.queueMessages = true) (s : JexToast.ToastState)
    (e : JexToast.ToastEvent) (hinv : ToastInv opts s)
    (hgood : JexToast.goodEvent s e = true) :
    ToastInv opts (JexToast.toastStep opts s e) := by
  rcases e with ⟨t, m, dur, now⟩ | id | ⟨id, now⟩
  · exact toastInv_toastShow opts hq s t m dur now hinv
  · simp only [JexToast.goodEvent, Bool.not_eq_true'] at hgood
    refine toastInv_removeStart opts s id hinv ?_
    intro hmem
    have h2 : s.pending.contains id = true := List.elem_iff.mpr hmem
    rw [h2] at hgood
    simp at hgood
  · simp only [JexToast.toastStep]
    split
    · rename_i hcond
      exact toastInv_removeFinish opts s id now hinv (List.elem_iff.mp hcond)
    · exact hinv

/-- The invariant holds after every good trace. -/
lemma toastInv_runTrace (opts : JexToast.ToastOptions)
    (hq : opts.queueMessages = true) (es : List JexToast.ToastEvent) :
    ∀ s, ToastInv opts s → JexToast.goodTrace opts s es = true →
      ToastInv opts (JexToast.runTrace opts s es) := by
  induction es with
  | nil => intro s hs _; simpa using hs
  | cons e rest ih =>
      intro s hs hg
      simp only [JexToast.goodTrace, Bool.and_eq_true] at hg
      exact ih _ (toastInv_step opts hq s e hs hg.1) hg.2

/-- The fresh toast system satisfies the invariant. -/
lemma toastInv_init (opts : JexToast.ToastOptions) :
    ToastInv opts JexToast.toastInit :=
  ⟨rfl, Nat.zero_le _, List.nodup_nil, List.nodup_nil,
   fun x hx => absurd hx (List.not_mem_nil x),
   fun x hx => absurd hx (List.not_mem_nil x)⟩

/-- Starting a removal never touches the queue. -/
lemma removeStart_queue (s : JexToast.ToastState) (id : Nat) :
    (JexToast.removeStart s id).queue = s.queue := by
  unfold JexToast.removeStart
  cases JexToast.activeGet s id <;> rfl

/-- A `show` call never shortens the pending queue. -/
lemma toastShow_queue_length (opts : JexToast.ToastOptions)
    (s : JexToast.ToastState) (t m : String) (dur : Option Nat)
    (now : Nat) :
    s.queue.length ≤ (JexToast.toastShow opts s t m dur now).queue.length := by
  unfold JexToast.toastShow
  split
  · exact le_refl _
  · split
    · split
      · simp
      · cases h : s.active.head? with
        | none =>
            simp only [h]
            exact le_refl _
        | some p =>
            simp only [h]
            show s.queue.length ≤
              (JexToast.removeStart s p.1).queue.length
            rw [removeStart_queue]
    · exact le_refl _

/-- C4 (amended): with `queueMessages` enabled, (a) along every trace in
which no toast's removal is started a second time while already in
progress, the number of simultaneously active toasts never exceeds
`maxVisible`; (b) a non-duplicate `show` arriving while
`visibleToasts ≥ maxVisible` only appends the message, with its resolved
duration, to the queue; and (c) only the completed removal of a toast can
take a message off the queue for display. -/
theorem toast_cap (opts : JexToast.ToastOptions)
    (hq : opts.queueMessages = true) :
    (∀ es, JexToast.goodTrace opts JexToast.toastInit es = true →
       (JexToast.runTrace opts JexToast.toastInit es).active.length ≤
         opts.maxVisible) ∧
    (∀ s t m d now, (opts.maxVisible : Int) ≤ s.visibleToasts →
       (opts.detectDuplicates && JexToast.isDuplicate s t m now) = false →
       JexToast.toastStep opts s (JexToast.ToastEvent.show t m d now) =
         { s with queue := s.queue ++ [(t, m, d.getD opts.duration)] }) ∧
    (∀ s e, (JexToast.toastStep opts s e).queue.length < s.queue.length →
       ∃ id now, e = JexToast.ToastEvent.removeFinish id now) := by
  refine ⟨fun es hg =>
      (toastInv_runTrace opts hq es _ (toastInv_init opts) hg).2.1,
    fun s t m d now hge hdup => ?_, fun s e hlt => ?_⟩
  · show JexToast.toastShow opts s t m d now = _
    unfold JexToast.toastShow
    rw [hq]
    rw [if_neg (by rw [hdup]; simp), if_pos hge]
    simp
  · rcases e with ⟨t, m, dur, now⟩ | id | ⟨id, now⟩
    · exact absurd hlt
        (not_lt_of_le (toastShow_queue_length opts s t m dur now))
    · rw [show JexToast.toastStep opts s (JexToast.ToastEvent.removeStart id) =
        JexToast.removeStart s id from rfl, removeStart_queue] at hlt
      exact absurd hlt (lt_irrefl _)
    · exact ⟨id, now, rfl⟩

/-- C4 witness: a short good trace that fills the single visible slot and
queues the overflow. -/
theorem toast_cap_witness :
    ((JexToast.runTrace
        { maxVisible := 1, duration := 5000, queueMessages := true,
          detectDuplicates := true }
        JexToast.toastInit
        [JexToast.ToastEvent.show "info" "A" none 0,
         JexToast.ToastEvent.show "info" "B" none 2000]).active.length ≤
      (1 : Nat)) :=
  (toast_cap
      { maxVisible := 1, duration := 5000, queueMessages := true,
        detectDuplicates := true } rfl).1
    [JexToast.ToastEvent.show "info" "A" none 0,
     JexToast.ToastEvent.show "info" "B" none 2000] (by decide)

/-- C5 (amended): with `detectDuplicates` enabled, a `show` whose type and
message match `#lastToast` within 1000ms creates no new toast element and
changes no counter, queue entry or bookkeeping; if a matching toast is
still active, the first such toast is pulsed and its auto-dismiss timer is
re-armed with the configured default `options.duration`; if none is still
active the duplicate is dropped with no effect at all. -/
theorem toast_duplicate (opts : JexToast.ToastOptions)
    (s : JexToast.ToastState) (t m : String) (d : Option Nat) (now : Nat)
    (hdup : opts.detectDuplicates = true)
    (hisdup : JexToast.isDuplicate s t m now = true) :
    ((JexToast.toastStep opts s
        (JexToast.ToastEvent.show t m d now)).nextId = s.nextId) ∧
    ((JexToast.toastStep opts s
        (JexToast.ToastEvent.show t m d now)).queue = s.queue) ∧
    ((JexToast.toastStep opts s
        (JexToast.ToastEvent.show t m d now)).pending = s.pending) ∧
    ((JexToast.toastStep opts s
        (JexToast.ToastEvent.show t m d now)).visibleToasts =
      s.visibleToasts) ∧
    ((JexToast.toastStep opts s
        (JexToast.ToastEvent.show t m d now)).lastToast = s.lastToast) ∧
    ((JexToast.toastStep opts s
        (JexToast.ToastEvent.show t m d now)).active.length =
      s.active.length) ∧
    (∀ pre (id : Nat) (dat : JexToast.ToastData) post,
       s.active = pre ++ (id, dat) :: post →
       (∀ q ∈ pre, ¬(q.2.type = t ∧ q.2.message = m)) →
       dat.type = t → dat.message = m →
       (JexToast.toastStep opts s
           (JexToast.ToastEvent.show t m d now)).active =
         pre ++ (id, { dat with pulses := dat.pulses + 1,
                                timer := some opts.duration }) :: post) ∧
    ((∀ q ∈ s.active, ¬(q.2.type = t ∧ q.2.message = m)) →
       JexToast.toastStep opts s (JexToast.ToastEvent.show t m d now) = s) := by
  have hstep : JexToast.toastStep opts s
      (JexToast.ToastEvent.show t m d now) =
      JexToast.handleDuplicate opts s t m := by
    show JexToast.toastShow opts s t m d now = _
    unfold JexToast.toastShow
    rw [if_pos (by rw [hdup, hisdup]; rfl)]
  rw [hstep]
  refine ⟨rfl, rfl, rfl, rfl, rfl, pulseFirstMatch_length _ _ _ _,
    fun pre id dat post hact hpre ht hm => ?_, fun hnone => ?_⟩
  · show JexToast.pulseFirstMatch opts t m s.active = _
    rw [hact]
    exact pulseFirstMatch_split opts t m pre id dat post hpre ht hm
  · show ({ s with active :=
      JexToast.pulseFirstMatch opts t m s.active } : JexToast.ToastState) = s
    rw [pulseFirstMatch_nomatch opts t m s.active hnone]

/-- C5 witness: a duplicate within the window pulses the active toast and
re-arms its timer with the default duration. -/
theorem toast_duplicate_witness :
    (JexToast.toastStep JexToast.defaultToastOptions
        { queue := [], active := [(0,
            { type := "info", message := "A", duration := 5000,
              timer := some 5000, pulses := 0 })],
          pending := [], visibleToasts := 1, isVisible := true,
          lastToast := some { type := "info", message := "A", timestamp := 0 },
          nextId := 1 }
        (JexToast.ToastEvent.show "info" "A" none 500)).active =
      [(0, { type := "info", message := "A", duration := 5000,
             timer := some 5000, pulses := 1 })] := by
  have h := (toast_duplicate JexToast.defaultToastOptions
      { queue := [], active := [(0,
          { type := "info", message := "A", duration := 5000,
            timer := some 5000, pulses := 0 })],
        pending := [], visibleToasts := 1, isVisible := true,
        lastToast := some { type := "info", message := "A", timestamp := 0 },
        nextId := 1 }
      "info" "A" none 500 rfl (by decide)).2.2.2.2.2.2.1
    [] 0
    { type := "info", message := "A", duration := 5000,
      timer := some 5000, pulses := 0 } [] rfl (by simp) rfl rfl
  simpa using h
